import Mathlib

/-!
Verification of the word-matching engine of `src/slovak_letters.py`
(class `SlovakWordGenerator` and the query branch of `main`).

Strings are modelled as `List Char`; Python sets of characters as
`List Char` with membership; the Python `Counter` sub-multiset test as a
count comparison over the characters of the word.
-/

namespace SlovakGame

/-- Python `str.lower`, restricted to the alphabet this program works over:
ASCII letters and the Slovak diacritic alphabet. Characters outside this
alphabet are returned unchanged. -/
def pyLower (c : Char) : Char :=
  match c with
  | 'Á' => 'á' | 'Ä' => 'ä' | 'Č' => 'č' | 'Ď' => 'ď' | 'É' => 'é'
  | 'Í' => 'í' | 'Ĺ' => 'ĺ' | 'Ľ' => 'ľ' | 'Ň' => 'ň' | 'Ó' => 'ó'
  | 'Ô' => 'ô' | 'Ŕ' => 'ŕ' | 'Š' => 'š' | 'Ť' => 'ť' | 'Ú' => 'ú'
  | 'Ý' => 'ý' | 'Ž' => 'ž'
  | _ => c.toLower

/-- `text.lower()` applied characterwise. -/
def lowerStr (s : List Char) : List Char := s.map pyLower

/-- The `slovak_map` dictionary of the constructor: each lowercase Slovak
diacritic mapped to its base Latin letter; `none` for every other
character (`c not in slovak_map`). -/
def slovak_map (c : Char) : Option Char :=
  match c with
  | 'á' => some 'a' | 'ä' => some 'a' | 'č' => some 'c' | 'ď' => some 'd'
  | 'é' => some 'e' | 'í' => some 'i' | 'ĺ' => some 'l' | 'ľ' => some 'l'
  | 'ň' => some 'n' | 'ó' => some 'o' | 'ô' => some 'o' | 'ŕ' => some 'r'
  | 'š' => some 's' | 'ť' => some 't' | 'ú' => some 'u' | 'ý' => some 'y'
  | 'ž' => some 'z'
  | _ => none

/-- `SlovakWordGenerator.normalize_slovak`: lowercase the text, then keep
each character that is in `allowed_diacritics`, map the others through
`slovak_map` (defaulting to the character itself). -/
def normalize_slovak (allowed_diacritics : List Char) (text : List Char) : List Char :=
  (lowerStr text).map (fun c =>
    if c ∈ allowed_diacritics then c else (slovak_map c).getD c)

/-- `SlovakWordGenerator.can_make_word`: lowercase both strings, count
characters, and require `available[c] >= needed[c]` for every character of
the word. -/
def can_make_word (available_letters word : List Char) : Bool :=
  let available := lowerStr available_letters
  let needed := lowerStr word
  needed.all (fun c => decide (needed.count c ≤ available.count c))

/-- `SlovakWordGenerator.calculate_word_score`:
`len(word) * 10` plus `sum(2 for c in word if c in allowed_diacritics)`. -/
def calculate_word_score (allowed_diacritics word : List Char) : Nat :=
  let base_score := word.length * 10
  let bonus := (List.map (fun _ => 2)
    (word.filter (fun c => decide (c ∈ allowed_diacritics)))).sum
  base_score + bonus

/-- The `has_valid_diacritics` check inside `generate_words`:
`all(c in allowed_diacritics or c not in slovak_map for c in word)`. -/
def has_valid_diacritics (allowed_diacritics word : List Char) : Bool :=
  word.all (fun c => decide (c ∈ allowed_diacritics) || (slovak_map c).isNone)

/-- The sort key of `generate_words`: Python sorts ascending by
`(-score, -len(word))`, so `a` precedes `b` when `a`'s score is larger, or
the scores are equal and `a`'s word is at least as long. -/
def result_le (a b : List Char × Nat) : Prop :=
  b.2 < a.2 ∨ (a.2 = b.2 ∧ b.1.length ≤ a.1.length)

instance : DecidableRel result_le := fun a b => by
  unfold result_le; infer_instance

instance : IsTotal (List Char × Nat) result_le := by
  constructor
  intro a b
  unfold result_le
  rcases Nat.lt_trichotomy a.2 b.2 with h | h | h
  · exact Or.inr (Or.inl h)
  · rcases Nat.le_total b.1.length a.1.length with hl | hl
    · exact Or.inl (Or.inr ⟨h, hl⟩)
    · exact Or.inr (Or.inr ⟨h.symm, hl⟩)
  · exact Or.inl (Or.inl h)

instance : IsTrans (List Char × Nat) result_le := by
  constructor
  intro a b c hab hbc
  unfold result_le at *
  rcases hab with h1 | ⟨h1, h1l⟩
  · rcases hbc with h2 | ⟨h2, _⟩
    · exact Or.inl (h2.trans h1)
    · exact Or.inl (h2 ▸ h1)
  · rcases hbc with h2 | ⟨h2, h2l⟩
    · exact Or.inl (h1 ▸ h2)
    · exact Or.inr ⟨h1.trans h2, h2l.trans h1l⟩

/-- `SlovakWordGenerator.generate_words`: iterate the dictionary, keep the
words that are formable from the letters and pass the diacritics check,
pair each with its score, and sort by `(-score, -len(word))`. The
dictionary is passed as the list of words in iteration order. -/
def generate_words (dictionary : List (List Char)) (allowed_diacritics letters : List Char) :
    List (List Char × Nat) :=
  let results := dictionary.filterMap (fun word =>
    if can_make_word letters word then
      if has_valid_diacritics allowed_diacritics word then
        some (word, calculate_word_score allowed_diacritics word)
      else none
    else none)
  results.insertionSort result_le

/-- Python `str.strip`: drop whitespace from both ends. -/
def strip (s : List Char) : List Char :=
  ((s.dropWhile Char.isWhitespace).reverse.dropWhile Char.isWhitespace).reverse

/-- `SlovakWordGenerator.load_dictionary`, over the list of raw lines of
the source file: strip each line, skip it when it starts with `#` or is
empty, otherwise insert `line.split('/')[0]` into the dictionary set. -/
def load_dictionary (lines : List (List Char)) : Finset (List Char) :=
  lines.foldl (fun dictionary line =>
    if (strip line).head? = some '#' ∨ strip line = [] then dictionary
    else insert ((strip line).takeWhile (fun c => decide (c ≠ '/'))) dictionary) ∅

/-- The per-line processing of `load_dictionary`, as a single step:
`some word` when the line contributes a word, `none` when it is skipped. -/
def parse_line (line : List Char) : Option (List Char) :=
  if (strip line).head? = some '#' ∨ strip line = [] then none
  else some ((strip line).takeWhile (fun c => decide (c ≠ '/')))

/-- Outcome of the query branch of `main` (lines 169-173): either the
length-validation error carrying the actual normalized length, or the
result list of `generate_words`. -/
inductive QueryResult where
  | validationError (actual : Nat) : QueryResult
  | results (words : List (List Char × Nat)) : QueryResult

/-- The query branch of `main`: compute the normalized length of the
entered letters; if it differs from the configured word length report the
validation error, otherwise run `generate_words`. -/
def run_query (dictionary : List (List Char)) (allowed_diacritics : List Char)
    (word_length : Nat) (letters : List Char) : QueryResult :=
  let normalized_len := (normalize_slovak allowed_diacritics letters).length
  if normalized_len ≠ word_length then QueryResult.validationError normalized_len
  else QueryResult.results (generate_words dictionary allowed_diacritics letters)

/-- Feasibility matching as the spec words it (§4.4): normalize BOTH the
letter pool and the word with the allowed-diacritics set, then test
sub-multiset containment of the character frequencies. Stated for
comparison with `can_make_word`, which is the source's definition. -/
def canForm_spec (allowed_diacritics pool word : List Char) : Bool :=
  let p := normalize_slovak allowed_diacritics pool
  let w := normalize_slovak allowed_diacritics word
  w.all (fun c => decide (w.count c ≤ p.count c))

/-! ## Helper lemmas -/

lemma list_sum_map_two (l : List Char) :
    (List.map (fun _ => (2 : Nat)) l).sum = 2 * l.length := by
  induction l with
  | nil => rfl
  | cons a t ih => simp only [List.map_cons, List.sum_cons, ih, List.length_cons]; omega

lemma calculate_word_score_eq (A w : List Char) :
    calculate_word_score A w = 10 * w.length + 2 * w.countP (fun c => decide (c ∈ A)) := by
  simp only [calculate_word_score]
  rw [list_sum_map_two, List.countP_eq_length_filter]
  ring

lemma mem_generate_words_valid {d : List (List Char)} {A p w : List Char} {s : Nat}
    (h : (w, s) ∈ generate_words d A p) : has_valid_diacritics A w = true := by
  simp only [generate_words] at h
  have h2 := (List.perm_insertionSort result_le _).subset h
  rw [List.mem_filterMap] at h2
  obtain ⟨word, _, heq⟩ := h2
  by_cases hc : can_make_word p word
  · by_cases hv : has_valid_diacritics A word
    · rw [if_pos hc, if_pos hv, Option.some_inj] at heq
      rw [← (Prod.mk.injEq .. ▸ heq : word = w ∧ _).1]
      exact hv
    · rw [if_pos hc, if_neg hv] at heq; cases heq
  · rw [if_neg hc] at heq; cases heq

/-! ## Claims -/

/-- Claim C1 (counterexample): the spec-worded feasibility test normalizes
both inputs, so with allowed set ∅ the word "čaj" is formable from the
base-letter pool "caj"; the source's `can_make_word` does not normalize
at all (it only lowercases), and rejects that same pair. -/
theorem C1_counterexample :
    canForm_spec [] ['c', 'a', 'j'] ['č', 'a', 'j'] = true ∧
    can_make_word ['c', 'a', 'j'] ['č', 'a', 'j'] = false := by decide

/-- Claim C1 (amended): `can_make_word P w` holds iff the character
frequency multiset of the lowercased `w` is a sub-multiset of that of
the lowercased `P`; no diacritic normalization is applied, so a word with
a diacritic outside the allowed set needs the literal diacritic in the
pool, not its base letter. -/
theorem C1_amended_lower_submultiset (P w : List Char) :
    can_make_word P w = true ↔
      (↑(lowerStr w) : Multiset Char) ≤ (↑(lowerStr P) : Multiset Char) := by
  simp only [can_make_word, List.all_eq_true, decide_eq_true_eq]
  rw [Multiset.le_iff_count]
  constructor
  · intro h c
    rw [Multiset.coe_count, Multiset.coe_count]
    by_cases hc : c ∈ lowerStr w
    · exact h c hc
    · rw [List.count_eq_zero.mpr hc]
      exact Nat.zero_le _
  · intro h c _
    have hc := h c
    rw [Multiset.coe_count, Multiset.coe_count] at hc
    exact hc

/-- Claim C2 (counterexample): the uppercase diacritic 'Č' is not a key of
`slovak_map`, so the word "Č" passes the diacritics check even though it
contains (case-insensitively) the diacritic 'č', which is outside the
empty allowed set; it appears in the output of `generate_words`. -/
theorem C2_counterexample :
    (['Č'], 10) ∈ generate_words [['Č']] [] ['č'] ∧
    slovak_map (pyLower 'Č') = some 'c' ∧ 'č' ∉ ([] : List Char) := by decide

/-- Claim C2 (amended): the diacritics filter is case-sensitive over the
lowercase keys of `slovak_map`: every word emitted by `generate_words`
has each of its characters either in the allowed set or outside the
lowercase diacritic map (uppercase diacritics are never filtered). -/
theorem C2_amended_authorization (d : List (List Char)) (A p w : List Char) (s : Nat)
    (h : (w, s) ∈ generate_words d A p) :
    ∀ c ∈ w, c ∈ A ∨ slovak_map c = none := by
  have hv := mem_generate_words_valid h
  simp only [has_valid_diacritics, List.all_eq_true, Bool.or_eq_true, decide_eq_true_eq,
    Option.isNone_iff_eq_none] at hv
  exact hv

theorem C2_amended_authorization_witness :
    'a' ∈ ([] : List Char) ∨ slovak_map 'a' = none :=
  C2_amended_authorization [['a']] [] ['a'] ['a'] 10 (by decide) 'a' (by decide)

/-- Claim C3: when the normalized length of the letter pool differs from
the configured word length, the query reports a validation error carrying
the actual normalized length and `generate_words` is not run; when the
lengths agree, the query returns the result list of `generate_words`. -/
theorem C3_length_validation (d : List (List Char)) (A : List Char) (n : Nat)
    (p : List Char) :
    ((normalize_slovak A p).length ≠ n →
      run_query d A n p = QueryResult.validationError (normalize_slovak A p).length) ∧
    ((normalize_slovak A p).length = n →
      run_query d A n p = QueryResult.results (generate_words d A p)) := by
  constructor
  · intro h
    simp only [run_query, if_pos h]
  · intro h
    simp only [run_query, h, ne_eq, not_true_eq_false, if_false]

theorem C3_length_validation_witness :
    run_query [] [] 2 ['a'] = QueryResult.validationError 1 ∧
    run_query [] [] 1 ['a'] = QueryResult.results [] := by
  constructor
  · exact (C3_length_validation [] [] 2 ['a']).1 (by decide)
  · exact ((C3_length_validation [] [] 1 ['a']).2 (by decide)).trans rfl

/-- Claim C4: the score of a word is 10 times its character length plus
2 for each of its characters belonging to the allowed-diacritics set; in
particular "čaj" with allowed set consisting of 'č' scores 32. -/
theorem C4_score_formula :
    (∀ A w : List Char,
      calculate_word_score A w = 10 * w.length + 2 * w.countP (fun c => decide (c ∈ A))) ∧
    calculate_word_score ['č'] ['č', 'a', 'j'] = 32 :=
  ⟨calculate_word_score_eq, by decide⟩

/-- Claim C5: the output of `generate_words` is sorted by the composite
key of `result_le`: for adjacent pairs, either the earlier score is
strictly larger, or the scores are equal and the earlier word is at least
as long. -/
theorem C5_output_sorted (d : List (List Char)) (A p : List Char) :
    List.Chain' (fun a b : List Char × Nat =>
      b.2 < a.2 ∨ (a.2 = b.2 ∧ b.1.length ≤ a.1.length)) (generate_words d A p) := by
  have h : List.Sorted result_le (generate_words d A p) := by
    simp only [generate_words]
    exact List.sorted_insertionSort result_le _
  exact List.Pairwise.chain' h

/-- Claim C6: `generate_words` is a pure function of the dictionary (in
iteration order), the allowed-diacritics set, and the letter pool: two
calls with identical arguments return the identical ordered sequence. -/
theorem C6_deterministic (d₁ d₂ : List (List Char)) (A₁ A₂ p₁ p₂ : List Char)
    (hd : d₁ = d₂) (hA : A₁ = A₂) (hp : p₁ = p₂) :
    generate_words d₁ A₁ p₁ = generate_words d₂ A₂ p₂ := by
  rw [hd, hA, hp]

theorem C6_deterministic_witness :
    generate_words [['a']] [] ['a'] = generate_words [['a']] [] ['a'] :=
  C6_deterministic [['a']] [['a']] [] [] ['a'] ['a'] rfl rfl rfl

/-- Claim C7: for a fixed allowed-diacritics set, the score is monotone:
a word no longer than another and containing no more allowed-diacritic
characters scores no more. -/
theorem C7_score_monotone (A w₁ w₂ : List Char)
    (hl : w₁.length ≤ w₂.length)
    (hc : w₁.countP (fun c => decide (c ∈ A)) ≤ w₂.countP (fun c => decide (c ∈ A))) :
    calculate_word_score A w₁ ≤ calculate_word_score A w₂ := by
  rw [calculate_word_score_eq, calculate_word_score_eq]
  exact Nat.add_le_add (Nat.mul_le_mul_left 10 hl) (Nat.mul_le_mul_left 2 hc)

theorem C7_score_monotone_witness :
    calculate_word_score ['č'] ['a'] ≤ calculate_word_score ['č'] ['č', 'a'] :=
  C7_score_monotone ['č'] ['a'] ['č', 'a'] (by decide) (by decide)

lemma load_dictionary_foldl (lines : List (List Char)) :
    ∀ d : Finset (List Char),
      lines.foldl (fun dictionary line =>
        if (strip line).head? = some '#' ∨ strip line = [] then dictionary
        else insert ((strip line).takeWhile (fun c => decide (c ≠ '/'))) dictionary) d =
      d ∪ (lines.filterMap parse_line).toFinset := by
  induction lines with
  | nil =>
    intro d
    simp
  | cons line rest ih =>
    intro d
    rw [List.foldl_cons]
    by_cases h : (strip line).head? = some '#' ∨ strip line = []
    · have hp : parse_line line = none := by
        simp only [parse_line, if_pos h]
      rw [if_pos h, List.filterMap_cons_none hp]
      exact ih d
    · have hp : parse_line line =
          some ((strip line).takeWhile (fun c => decide (c ≠ '/'))) := by
        simp only [parse_line, if_neg h]
      rw [if_neg h, List.filterMap_cons_some hp, ih, List.toFinset_cons,
        Finset.insert_union, Finset.union_insert]

/-- Claim C8: the loaded dictionary is exactly the deduplicated set of the
per-line results: strip the line, skip it when empty or starting with
`#`, otherwise keep the segment before the first `/`. -/
theorem C8_load_dictionary (lines : List (List Char)) :
    load_dictionary lines = (lines.filterMap parse_line).toFinset := by
  rw [load_dictionary, load_dictionary_foldl]
  exact Finset.empty_union _

/-- Claim C9: when every dictionary word fails to be both formable from
the pool and clean of disallowed diacritics, a length-valid query returns
the empty result list — a normal outcome distinct from a validation
error, with no failure raised. -/
theorem C9_empty_result (d : List (List Char)) (A p : List Char) (n : Nat)
    (hv : (normalize_slovak A p).length = n)
    (h : ∀ w ∈ d, ¬(can_make_word p w = true ∧ has_valid_diacritics A w = true)) :
    run_query d A n p = QueryResult.results [] := by
  have hg : generate_words d A p = [] := by
    simp only [generate_words]
    have hf : d.filterMap (fun word =>
        if can_make_word p word then
          if has_valid_diacritics A word then
            some (word, calculate_word_score A word)
          else none
        else none) = [] := by
      rw [List.filterMap_eq_nil_iff]
      intro w hw
      have hnot := h w hw
      by_cases hc : can_make_word p w
      · by_cases hvd : has_valid_diacritics A w
        · exact absurd ⟨hc, hvd⟩ hnot
        · rw [if_pos hc, if_neg hvd]
      · rw [if_neg hc]
    rw [hf]
    rfl
  simp only [run_query, hv, ne_eq, not_true_eq_false, if_false, hg]

theorem C9_empty_result_witness :
    run_query [['b']] [] 1 ['a'] = QueryResult.results [] :=
  C9_empty_result [['b']] [] ['a'] 1 (by decide) (by decide)

/-- Claim C10: a non-blank, non-comment line whose stripped text starts
with `/` stores the empty string in the dictionary; the empty word is
formable from every pool and passes every diacritics check with score 0,
so it appears as the pair `([], 0)` in the output of every query over a
dictionary containing it. -/
theorem C10_empty_word (line : List Char) (d : List (List Char)) (A p : List Char)
    (h1 : strip line ≠ []) (h2 : (strip line).head? ≠ some '#')
    (h3 : (strip line).head? = some '/') (hd : [] ∈ d) :
    parse_line line = some [] ∧ ([], 0) ∈ generate_words d A p := by
  constructor
  · have hcond : ¬((strip line).head? = some '#' ∨ strip line = []) := by
      rintro (ha | hb)
      · exact h2 ha
      · exact h1 hb
    obtain ⟨t, ht⟩ : ∃ t, strip line = '/' :: t := by
      cases hl : strip line with
      | nil => exact absurd hl h1
      | cons a t =>
        rw [hl] at h3
        simp only [List.head?_cons, Option.some_inj] at h3
        exact ⟨t, by rw [h3]⟩
    simp only [parse_line, if_neg hcond, ht, Option.some_inj]
    simp [List.takeWhile]
  · have hmem : ([], (0 : Nat)) ∈ d.filterMap (fun word =>
        if can_make_word p word then
          if has_valid_diacritics A word then
            some (word, calculate_word_score A word)
          else none
        else none) := by
      rw [List.mem_filterMap]
      refine ⟨[], hd, ?_⟩
      have hc : can_make_word p [] = true := by
        simp [can_make_word, lowerStr]
      have hvd : has_valid_diacritics A [] = true := by
        simp [has_valid_diacritics]
      rw [if_pos hc, if_pos hvd]
      simp [calculate_word_score]
    simp only [generate_words]
    exact ((List.perm_insertionSort result_le _).mem_iff).mpr hmem

theorem C10_empty_word_witness :
    parse_line ['/', 'x'] = some [] ∧ ([], 0) ∈ generate_words [[]] [] [] :=
  C10_empty_word ['/', 'x'] [[]] [] [] (by decide) (by decide) (by decide) (by decide)

end SlovakGame
